import Mathlib

/- Verification of the ccyq path-query evaluator (src/ccyq.py).

The document tree, the query parsers and the recursive evaluator are
embedded as executable Lean functions.  Query strings are processed as
lists of characters (String.data).  The evaluator applyQ takes an explicit
fuel argument bounding the recursion depth; every recursive call of the
Python original is on a strictly shorter query string, so any fuel above
the query length suffices, and fuel exhaustion is reported as the
distinguished error Err.outOfFuel (it never occurs in the statements
below). -/

/-- Document tree: the Python values produced by yaml.safe_load as used by
the evaluator.  Scalars are modelled as null, bool, int and str; mapping
keys are modelled as strings (every document in the claims has string
keys). -/
inductive Yaml where
  | null : Yaml
  | bool : Bool → Yaml
  | int : Int → Yaml
  | str : String → Yaml
  | list : List Yaml → Yaml
  | dict : List (String × Yaml) → Yaml

/-- Errors raised by the Python code.  Each constructor corresponds to one
raise site of src/ccyq.py (or to one built-in Python exception that can
escape), with the dynamic parts of the message carried as data. -/
inductive Err where
  | invalidQuery : List Char → Err
  | missingBracket : List Char → Err
  | wrongOrder : List Char → Err
  | invalidIndex : List Char → Err
  | emptyKeyName : List Char → Err
  | keyNotFound : String → Err
  | cannotIterate : String → Err
  | cannotIndex : String → Err
  | indexOutOfRange : Err
  | intKeyNotFound : Int → Err
  | notSubscriptable : String → Err
  | outOfFuel : Err

/-- Character class [a-zA-Z_] of the identifier grammar. -/
def identStart (c : Char) : Bool := c.isAlpha || c == '_'

/-- Character class [a-zA-Z0-9_] of the identifier grammar. -/
def identChar (c : Char) : Bool := c.isAlphanum || c == '_'

/-- A nonempty identifier token [a-zA-Z_][a-zA-Z0-9_]*. -/
def identTok : List Char → Bool
  | [] => false
  | c :: cs => identStart c && cs.all identChar

/-- Python query.endswith("?") on a character list. -/
def endsWithQm : List Char → Bool
  | [] => false
  | [c] => c == '?'
  | _ :: c :: rest => endsWithQm (c :: rest)

/-- Grammar alternatives 1 and 2 of parse_query (src/ccyq.py lines 17-18):
the regex is a dot, an open bracket, the quote character qc, a nonempty
capture of characters other than qc, the quote character again, a close
bracket and an optional question mark at the end. -/
def quotedPat (qc : Char) (q : List Char) : Option (List Char) :=
  match q with
  | d :: rest =>
    if d == '.' then
      match rest with
      | b :: rest1 =>
        if b == '[' then
          match rest1 with
          | e :: rest2 =>
            if e == qc then
              let t := rest2.takeWhile (fun x => x != qc)
              match rest2.dropWhile (fun x => x != qc) with
              | _ :: ']' :: tail =>
                if t = [] then none
                else if tail = [] ∨ tail = ['?'] then some t else none
              | _ => none
            else none
          | [] => none
        else none
      | [] => none
    else none
  | [] => none

/-- Grammar alternative 3 of parse_query (src/ccyq.py line 19): a dot, an
open bracket, a nonempty capture of characters other than a close bracket,
a close bracket and an optional question mark at the end. -/
def bracketPat (q : List Char) : Option (List Char) :=
  match q with
  | d :: rest =>
    if d == '.' then
      match rest with
      | b :: rest1 =>
        if b == '[' then
          let t := rest1.takeWhile (fun x => x != ']')
          match rest1.dropWhile (fun x => x != ']') with
          | ']' :: tail =>
            if t = [] then none
            else if tail = [] ∨ tail = ['?'] then some t else none
          | _ => none
        else none
      | [] => none
    else none
  | [] => none

/-- Scanner for the bracket-group part of grammar alternative 4, the
regex piece matching zero or more groups of an open bracket, characters
other than a close bracket, and a close bracket.  It consumes the maximal
run of complete groups; an open bracket that is never closed makes the
whole alternative fail (none), exactly as the regex does.  acc holds the
consumed characters in reverse. -/
def brgo (inside : Bool) (acc : List Char) : List Char → Option (List Char × List Char)
  | [] => if inside then none else some (acc.reverse, [])
  | c :: rest =>
    if inside then
      if c == ']' then brgo false (c :: acc) rest else brgo true (c :: acc) rest
    else
      if c == '[' then brgo true (c :: acc) rest else some (acc.reverse, c :: rest)

/-- Scanner for the trailing part of grammar alternative 4, the regex
piece matching zero or more groups of a dot followed by an identifier.
State true means inside an identifier.  The scanner stops, without
consuming, at the first position where no further iteration can match,
which is exactly where the greedy regex stops. -/
def dotgo (state : Bool) (acc : List Char) : List Char → List Char × List Char
  | [] => (acc.reverse, [])
  | c :: rest =>
    if state && identChar c then dotgo true (c :: acc) rest
    else
      match c, rest with
      | '.', c2 :: rest2 =>
        if identStart c2 then dotgo true (c2 :: '.' :: acc) rest2
        else (acc.reverse, c :: rest)
      | _, _ => (acc.reverse, c :: rest)

/-- Grammar alternative 4 of parse_query (src/ccyq.py line 20): a dot,
then an identifier, zero or more bracket groups, zero or more
dot-identifier groups, and an optional question mark at the end; the
capture is everything after the leading dot and before the question
mark. -/
def chainPat (q : List Char) : Option (List Char) :=
  match q with
  | d :: rest =>
    if d == '.' then
      match rest with
      | c :: rest1 =>
        if identStart c then
          let idt := c :: rest1.takeWhile identChar
          match brgo false [] (rest1.dropWhile identChar) with
          | some (br, r2) =>
            match dotgo false [] r2 with
            | (dots, r3) =>
              if r3 = [] ∨ r3 = ['?'] then some (idt ++ br ++ dots) else none
          | none => none
        else none
      | [] => none
    else none
  | [] => none

/-- parse_query (src/ccyq.py lines 13-31): try the four grammar
alternatives in order; on the first match return the captured key together
with query.endswith("?"); otherwise return (None, False). -/
def parse_query (query : List Char) : Option (List Char) × Bool :=
  match quotedPat '"' query with
  | some key => (some key, endsWithQm query)
  | none =>
    match quotedPat '\'' query with
    | some key => (some key, endsWithQm query)
    | none =>
      match bracketPat query with
      | some key => (some key, endsWithQm query)
      | none =>
        match chainPat query with
        | some key => (some key, endsWithQm query)
        | none => (none, false)

/-- Python str.strip() whitespace characters. -/
def isPyWs (c : Char) : Bool :=
  c == ' ' || c == '\t' || c == '\n' || c == '\r' || c == '\x0b' || c == '\x0c'

/-- Python str.strip(): remove leading and trailing whitespace. -/
def pyStrip (cs : List Char) : List Char :=
  ((cs.dropWhile isPyWs).reverse.dropWhile isPyWs).reverse

/-- Decimal digits with the underscore grouping of Python int(): after a
first digit, an underscore must be followed by another digit. -/
def digitsCore (acc : Nat) : List Char → Option Nat
  | [] => some acc
  | '_' :: c :: rest =>
    if c.isDigit then digitsCore (acc * 10 + (c.toNat - 48)) rest else none
  | c :: rest =>
    if c.isDigit then digitsCore (acc * 10 + (c.toNat - 48)) rest else none

/-- A digit string must start with a digit, not an underscore. -/
def digitsStart : List Char → Option Nat
  | c :: rest => if c.isDigit then digitsCore (c.toNat - 48) rest else none
  | [] => none

/-- Python int(s) on a string (src/ccyq.py line 62): optional surrounding
whitespace, an optional sign, then decimal digits.  none models the
ValueError that the code turns into its invalid-index error. -/
def pyInt (s : List Char) : Option Int :=
  match pyStrip s with
  | '-' :: rest => (digitsStart rest).map (fun v => -(v : Int))
  | '+' :: rest => (digitsStart rest).map (fun v => (v : Int))
  | t => (digitsStart t).map (fun v => (v : Int))

/-- Python key.index(c): position of the first occurrence; parse_key only
calls it when the character is present. -/
def idxOfCh (c : Char) : List Char → Nat
  | [] => 0
  | x :: rest => if x == c then 0 else idxOfCh c rest + 1

/-- The member_index component returned by parse_key: Python None,
"iterate", or an int. -/
inductive KIdx where
  | noIdx : KIdx
  | iterate : KIdx
  | index : Int → KIdx

/-- parse_key (src/ccyq.py lines 34-71): split a raw key into
(key_name, member_index, remaining_key).  The two Python returns for an
empty bracket interior (with and without a key name) both produce
(key_v, "iterate", remaining) and are embedded as one. -/
def parse_key (key : List Char) : Except Err (List Char × KIdx × List Char) :=
  if '[' ∈ key ∨ ']' ∈ key then
    if ¬ ('[' ∈ key ∧ ']' ∈ key) then .error (.missingBracket key)
    else
      let ob := idxOfCh '[' key
      let cb := idxOfCh ']' key
      if ob ≥ cb then .error (.wrongOrder key)
      else
        let key_v := key.take ob
        let memb := (key.drop (ob + 1)).take (cb - (ob + 1))
        let remaining := key.drop (cb + 1)
        if memb = [] then .ok (key_v, .iterate, remaining)
        else
          match pyInt memb with
          | none => .error (.invalidIndex memb)
          | some i =>
            if key_v = [] then .error (.emptyKeyName key)
            else .ok (key_v, .index i, remaining)
  else .ok (key, .noIdx, [])

/-- Python type(v).__name__ for the modelled values. -/
def pyTypeName : Yaml → String
  | .null => "NoneType"
  | .bool _ => "bool"
  | .int _ => "int"
  | .str _ => "str"
  | .list _ => "list"
  | .dict _ => "dict"

/-- isinstance(v, list). -/
def Yaml.isList : Yaml → Bool
  | .list _ => true
  | _ => false

/-- The check "v is None". -/
def Yaml.isNull : Yaml → Bool
  | .null => true
  | _ => false

/-- Python "key in data" and data[key] on a mapping with string keys. -/
def lookupKey (k : String) : List (String × Yaml) → Option Yaml
  | [] => none
  | (k1, v) :: rest => if k1 = k then some v else lookupKey k rest

/-- Python list indexing xs[i]: a negative index counts from the end; an
index outside the bounds raises IndexError. -/
def pyListIndex (xs : List Yaml) (i : Int) : Except Err Yaml :=
  let j := if i < 0 then (xs.length : Int) + i else i
  if 0 ≤ j then
    match xs.get? j.toNat with
    | some v => .ok v
    | none => .error .indexOutOfRange
  else .error .indexOutOfRange

/-- Python string indexing s[i]: yields a one-character string, with the
same negative-index and bounds behaviour as list indexing. -/
def pyStrIndex (s : String) (i : Int) : Except Err Yaml :=
  let cs := s.data
  let j := if i < 0 then (cs.length : Int) + i else i
  if 0 ≤ j then
    match cs.get? j.toNat with
    | some c => .ok (.str (String.mk [c]))
    | none => .error .indexOutOfRange
  else .error .indexOutOfRange

/-- Python value[i] with an integer i (src/ccyq.py line 134): lists and
strings support integer subscripts; a dict lookup with an int key misses
every string key and raises KeyError; anything else raises TypeError. -/
def pySubscriptInt : Yaml → Int → Except Err Yaml
  | .list xs, i => pyListIndex xs i
  | .str s, i => pyStrIndex s i
  | .dict _, i => .error (.intKeyNotFound i)
  | v, _ => .error (.notSubscriptable (pyTypeName v))

/-- Python remaining.lstrip("."): drop all leading dots. -/
def lstripDot (cs : List Char) : List Char := cs.dropWhile (fun c => c == '.')

/-- Python query.split("|"): split on every pipe character, keeping empty
pieces. -/
def splitPipe : List Char → List (List Char)
  | [] => [[]]
  | '|' :: rest => [] :: splitPipe rest
  | c :: rest =>
    match splitPipe rest with
    | p :: ps => (c :: p) :: ps
    | [] => [[c]]

/-- Inner loop of the pipe broadcast (src/ccyq.py lines 93-95): apply the
remaining filters in order to one element; errors propagate. -/
def chainApp (app : Yaml → List Char → Except Err Yaml) :
    List (List Char) → Yaml → Except Err Yaml
  | [], v => .ok v
  | f :: rest, v =>
    match app v f with
    | .error e => .error e
    | .ok r => chainApp app rest r

/-- The results.append loop over the elements of a list; errors
propagate. -/
def mapApp (g : Yaml → Except Err Yaml) : List Yaml → Except Err (List Yaml)
  | [] => .ok []
  | x :: xs =>
    match g x with
    | .error e => .error e
    | .ok r =>
      match mapApp g xs with
      | .error e => .error e
      | .ok rs => .ok (r :: rs)

/-- Python filters.index(f): index of the first occurrence of the value
f in the list (f is always present where the code calls it). -/
def idxOfF (f : List Char) : List (List Char) → Nat
  | [] => 0
  | g :: rest => if g = f then 0 else idxOfF f rest + 1

/-- Pipe loop of apply_query (src/ccyq.py lines 84-98): apply the filters
left to right; when an intermediate result is a list and the first
occurrence of the current filter text is not in last position, the
filters after that first occurrence are applied to every element and the
loop returns early. -/
def pipeLoop (app : Yaml → List Char → Except Err Yaml) (allF : List (List Char)) :
    List (List Char) → Yaml → Except Err Yaml
  | [], result => .ok result
  | f :: rest, current =>
    match app current f with
    | .error e => .error e
    | .ok result =>
      match result with
      | .list items =>
        if idxOfF f allF < allF.length - 1 then
          match mapApp (chainApp app (allF.drop (idxOfF f allF + 1))) items with
          | .error e => .error e
          | .ok rs => .ok (.list rs)
        else pipeLoop app allF rest result
      | _ => pipeLoop app allF rest result

/-- apply_query (src/ccyq.py lines 74-162).  The fuel argument bounds the
recursion depth; each recursive call of the original is on a strictly
shorter query string, so any fuel above the query length suffices. -/
def applyQ : Nat → Yaml → List Char → Except Err Yaml
  | 0, _, _ => .error .outOfFuel
  | fuel + 1, data, query =>
    if query = [] ∨ query = ['.'] then .ok data
    else if '|' ∈ query then
      let filters := (splitPipe query).map pyStrip
      pipeLoop (applyQ fuel) filters filters data
    else
      match parse_query query with
      | (none, optional) =>
        if ¬ optional then .error (.invalidQuery query) else .ok .null
      | (some key, optional) =>
        match data with
        | .dict m =>
          match parse_key key with
          | .error e => .error e
          | .ok (key_v, member_index, remaining) =>
            match lookupKey (String.mk key_v) m with
            | some value =>
              match member_index with
              | .iterate =>
                match value with
                | .list items =>
                  if remaining ≠ [] then
                    match mapApp (fun item => applyQ fuel item ('.' :: lstripDot remaining)) items with
                    | .error e => .error e
                    | .ok rs => .ok (.list rs)
                  else .ok value
                | _ =>
                  if ¬ optional then .error (.cannotIterate (pyTypeName value)) else .ok .null
              | .index i =>
                match pySubscriptInt value i with
                | .error e => .error e
                | .ok result =>
                  if remaining ≠ [] then applyQ fuel result ('.' :: lstripDot remaining)
                  else .ok result
              | .noIdx => .ok value
            | none =>
              if ¬ optional then .error (.keyNotFound (String.mk key_v)) else .ok .null
        | .list elems =>
          if key = [] then
            match (if '[' ∈ key then parse_key key else .ok ([], .noIdx, [])) with
            | .error e => .error e
            | .ok (_, mi, rem) =>
              match mi with
              | .iterate =>
                if rem ≠ [] then
                  match mapApp (fun item => applyQ fuel item ('.' :: lstripDot rem)) elems with
                  | .error e => .error e
                  | .ok rs => .ok (.list rs)
                else .ok data
              | _ => .ok .null
          else if ¬ optional then .error (.cannotIndex "list") else .ok .null
        | other =>
          if ¬ optional then .error (.cannotIndex (pyTypeName other)) else .ok .null

/-- The query section of main (src/ccyq.py lines 200-216): strip an outer
bracket pair (array collection) when the query starts with an open
bracket, ends with a close bracket and is longer than two characters; run
apply_query; when collecting, a non-list result becomes a singleton list,
or the empty list when it is None. -/
def main_query (fuel : Nat) (content : Yaml) (query : List Char) : Except Err Yaml :=
  if query.head? = some '[' ∧ query.getLast? = some ']' ∧ 2 < query.length then
    match applyQ fuel content (query.drop 1).dropLast with
    | .error e => .error e
    | .ok result =>
      .ok (if result.isList then result
           else if result.isNull then .list [] else .list [result])
  else applyQ fuel content query

/-- If a character fails a predicate that another satisfies, they differ. -/
theorem pred_ne {p : Char → Bool} {c x : Char} (h : p c = true) (hx : p x = false) : c ≠ x :=
  fun he => by rw [he, hx] at h; exact Bool.noConfusion h

/-- An identifier start character is an identifier character. -/
theorem identStart_char {c : Char} (h : identStart c = true) : identChar c = true := by
  simp only [identStart, Bool.or_eq_true] at h
  simp only [identChar, Char.isAlphanum, Bool.or_eq_true]
  rcases h with h | h
  · exact Or.inl (Or.inl h)
  · exact Or.inr h

/-- takeWhile keeps a list all of whose elements satisfy the predicate. -/
theorem all_takeWhile {p : Char → Bool} :
    ∀ {l : List Char}, (∀ d ∈ l, p d = true) → l.takeWhile p = l
  | [], _ => rfl
  | c :: cs, h => by
    rw [List.takeWhile_cons, if_pos (h c (by simp))]
    rw [all_takeWhile (fun d hd => h d (by simp [hd]))]

/-- dropWhile empties a list all of whose elements satisfy the predicate. -/
theorem all_dropWhile {p : Char → Bool} :
    ∀ {l : List Char}, (∀ d ∈ l, p d = true) → l.dropWhile p = []
  | [], _ => rfl
  | c :: cs, h => by
    rw [List.dropWhile_cons, if_pos (h c (by simp))]
    exact all_dropWhile (fun d hd => h d (by simp [hd]))

/-- A character failing the predicate is not in a list all of whose
elements satisfy it. -/
theorem all_not_mem (p : Char → Bool) (x : Char) (hx : p x = false) :
    ∀ {l : List Char}, (∀ d ∈ l, p d = true) → x ∉ l := by
  intro l h hmem
  exact absurd (h x hmem) (by rw [hx]; exact Bool.noConfusion)

/-- Inside an identifier, the dot-identifier scanner consumes every
remaining identifier character and stops at the end of the input. -/
theorem dotgo_ident_tail (acc : List Char) :
    ∀ (l : List Char), (∀ d ∈ l, identChar d = true) →
      dotgo true acc l = (acc.reverse ++ l, [])
  | [], _ => by rw [List.append_nil]; rfl
  | c :: cs, h => by
    have hc : identChar c = true := h c (by simp)
    rw [dotgo.eq_def]
    simp only [hc, Bool.and_self, if_true]
    rw [dotgo_ident_tail (c :: acc) cs (fun d hd => h d (by simp [hd]))]
    simp

/-- A query ending in an identifier character does not end in a question
mark. -/
theorem endsWithQm_all_ident :
    ∀ (l : List Char) (c : Char), identChar c = true →
      (∀ d ∈ l, identChar d = true) → endsWithQm (c :: l) = false
  | [], c, hc, _ => by
    simp only [endsWithQm]
    exact beq_eq_false_iff_ne.mpr (pred_ne hc (by decide))
  | d :: l, c, _, h => by
    show endsWithQm (d :: l) = false
    exact endsWithQm_all_ident l d (h d (by simp)) (fun x hx => h x (by simp [hx]))

/-- Grammar alternatives 1 and 2 fail when the second character is not an
open bracket. -/
theorem quotedPat_cons_ne (qc c : Char) (cs : List Char) (h : c ≠ '[') :
    quotedPat qc ('.' :: c :: cs) = none := by
  have hb : (c == '[') = false := beq_eq_false_iff_ne.mpr h
  show (if c == '[' then
          (match cs with
           | e :: rest2 =>
             if e == qc then
               let t := rest2.takeWhile (fun x => x != qc)
               match rest2.dropWhile (fun x => x != qc) with
               | _ :: ']' :: tail =>
                 if t = [] then none
                 else if tail = [] ∨ tail = ['?'] then some t else none
               | _ => none
             else none
           | [] => none)
        else none) = none
  rw [hb]
  rfl

/-- Grammar alternative 3 fails when the second character is not an open
bracket. -/
theorem bracketPat_cons_ne (c : Char) (cs : List Char) (h : c ≠ '[') :
    bracketPat ('.' :: c :: cs) = none := by
  have hb : (c == '[') = false := beq_eq_false_iff_ne.mpr h
  show (if c == '[' then
          (let t := cs.takeWhile (fun x => x != ']')
           match cs.dropWhile (fun x => x != ']') with
           | ']' :: tail =>
             if t = [] then none
             else if tail = [] ∨ tail = ['?'] then some t else none
           | _ => none)
        else none) = none
  rw [hb]
  rfl

/-- Grammar alternative 4 on a chain that is a dot followed by a single
identifier captures the identifier. -/
theorem chainPat_ident (c : Char) (cs : List Char) (hc : identStart c = true)
    (h : ∀ d ∈ cs, identChar d = true) :
    chainPat ('.' :: c :: cs) = some (c :: cs) := by
  show (if identStart c then
          (let idt := c :: cs.takeWhile identChar
           match brgo false [] (cs.dropWhile identChar) with
           | some (br, r2) =>
             match dotgo false [] r2 with
             | (dots, r3) =>
               if r3 = [] ∨ r3 = ['?'] then some (idt ++ br ++ dots) else none
           | none => none)
        else none) = some (c :: cs)
  rw [hc, all_takeWhile h, all_dropWhile h]
  simp [brgo, dotgo]

/-- parse_query on a dot followed by a single identifier: the key is the
identifier and the optional flag is false. -/
theorem parse_query_ident (c : Char) (cs : List Char) (hc : identStart c = true)
    (h : ∀ d ∈ cs, identChar d = true) :
    parse_query ('.' :: c :: cs) = (some (c :: cs), false) := by
  have hne : c ≠ '[' := pred_ne hc (by decide)
  have hend : endsWithQm ('.' :: c :: cs) = false := by
    show endsWithQm (c :: cs) = false
    exact endsWithQm_all_ident cs c (identStart_char hc) h
  simp only [parse_query, quotedPat_cons_ne _ _ _ hne, bracketPat_cons_ne _ _ hne,
    chainPat_ident c cs hc h, hend]

/-- parse_key on a pure identifier (no brackets) returns the identifier
with no member index and empty remaining key. -/
theorem parse_key_ident (l : List Char) (h : ∀ d ∈ l, identChar d = true) :
    parse_key l = .ok (l, .noIdx, []) := by
  have h1 : '[' ∉ l := all_not_mem identChar '[' (by decide) h
  have h2 : ']' ∉ l := all_not_mem identChar ']' (by decide) h
  unfold parse_key
  rw [if_neg (by rintro (hm | hm); exacts [h1 hm, h2 hm])]

/-- Evaluating a single-identifier stage on a mapping that contains the
key returns the bound value. -/
theorem applyQ_ident_lookup (n : Nat) (m : List (String × Yaml)) (c : Char) (cs : List Char)
    (v : Yaml) (hc : identStart c = true) (h : ∀ d ∈ cs, identChar d = true)
    (hv : lookupKey (String.mk (c :: cs)) m = some v) :
    applyQ (n + 1) (.dict m) ('.' :: c :: cs) = .ok v := by
  have hne : ¬ ('.' :: c :: cs = [] ∨ '.' :: c :: cs = ['.']) := by simp
  have hnp : '|' ∉ ('.' :: c :: cs) := by
    simp only [List.mem_cons, not_or]
    refine ⟨by decide, fun h1 => pred_ne hc (by decide) h1.symm, ?_⟩
    intro h1
    exact all_not_mem identChar '|' (by decide) h (by simpa using h1)
  have hall : ∀ d ∈ c :: cs, identChar d = true := by
    intro d hd
    rcases List.mem_cons.mp hd with rfl | hd
    · exact identStart_char hc
    · exact h d hd
  simp only [applyQ]
  rw [if_neg hne, if_neg hnp]
  simp only [parse_query_ident c cs hc h, parse_key_ident (c :: cs) hall]
  rw [hv]

/-- Python negative index -1 selects the last element of a nonempty
list. -/
theorem pyListIndex_last (s : List Yaml) (v : Yaml) (h : s.getLast? = some v) :
    pyListIndex s (-1) = .ok v := by
  have hne : s ≠ [] := fun he => by rw [he] at h; exact Option.noConfusion h
  have hpos : 0 < s.length := List.length_pos.mpr hne
  have hget : s.get? (s.length - 1) = some v := by
    rw [List.get?_eq_getElem?, ← List.getLast?_eq_getElem?]; exact h
  simp only [pyListIndex, show ((-1 : Int) < 0) = True by simp, if_true]
  rw [if_pos (by omega)]
  rw [show ((s.length : Int) + -1).toNat = s.length - 1 by omega, hget]

/-- C1: the spec requires the query .a.b on the document {a: {b: 5}} to
return the scalar 5, a dotted chain descending one mapping level per
identifier; the code instead looks up the whole dotted text "a.b" as a
single mapping key and raises KeyError. -/
theorem c1_dotted_chain_raises_keyerror :
    applyQ 10 (.dict [("a", .dict [("b", .int 5)])]) ".a.b".data
      = .error (.keyNotFound "a.b") := rfl

/-- C2: a stage text matching none of the four grammar alternatives is a
MalformedQuery error even when it ends in a question mark, because
parse_query hard-codes the optional flag to False on a failed match, so
the claimed silent null resolution never happens (the query .1? matches no
alternative since an identifier cannot start with a digit). -/
theorem c2_nomatch_with_qmark_still_errors :
    parse_query ".1?".data = (none, false) ∧
    applyQ 10 (.dict [("a", .int 1)]) ".1?".data = .error (.invalidQuery ".1?".data) :=
  ⟨rfl, rfl⟩

/-- C3: an optional out-of-bounds integer index raises IndexError rather
than resolving to null, and an optional integer index applied to a
non-sequence raises TypeError: the optional flag is never consulted on the
integer-indexing path of apply_query. -/
theorem c3_optional_index_errors_not_null :
    applyQ 10 (.dict [("k", .list [.int 1, .int 2])]) ".k[5]?".data
      = .error .indexOutOfRange ∧
    applyQ 10 (.dict [("k", .int 7)]) ".k[0]?".data
      = .error (.notSubscriptable "int") :=
  ⟨rfl, rfl⟩

/-- C4 counterexample: the query .a[-1] on {a: [1, 2, 3]} does not raise
InvalidIndex; Python int() accepts the negative bracket interior and list
indexing counts from the end, so the result is the last element 3. -/
theorem c4_negative_index_counterexample :
    applyQ 10 (.dict [("a", .list [.int 1, .int 2, .int 3])]) ".a[-1]".data
      = .ok (.int 3) := rfl

/-- C4 amended: a bracket interior that is a negative base-10 integer is
accepted rather than rejected with InvalidIndex, and the index counts from
the end of the sequence: .a[-1] returns the last element of the sequence
bound to the key a. -/
theorem c4_amended_negative_index_from_end (n : Nat) (s : List Yaml) (v : Yaml)
    (h : s.getLast? = some v) :
    applyQ (n + 1) (.dict [("a", .list s)]) ".a[-1]".data = .ok v := by
  have step : applyQ (n + 1) (.dict [("a", .list s)]) ".a[-1]".data
      = (match pyListIndex s (-1) with
         | .error e => .error e
         | .ok result => .ok result : Except Err Yaml) := rfl
  rw [step, pyListIndex_last s v h]

/-- C4 witness: the amended theorem applied to the sequence [1, 2]. -/
theorem c4_amended_witness :
    applyQ 1 (.dict [("a", .list [.int 1, .int 2])]) ".a[-1]".data = .ok (.int 2) :=
  c4_amended_negative_index_from_end 0 [.int 1, .int 2] (.int 2) rfl

/-- C5: a pure iteration stage with empty raw key is rejected by every
grammar alternative (alternative 3 requires a nonempty bracket interior),
so evaluating the stage .[] or [] on a sequence raises MalformedQuery
instead of iterating over the sequence. -/
theorem c5_pure_iteration_stage_is_malformed :
    applyQ 10 (.list [.int 1, .int 2]) ".[]".data
      = .error (.invalidQuery ".[]".data) ∧
    applyQ 10 (.list [.int 1, .int 2]) "[]".data
      = .error (.invalidQuery "[]".data) :=
  ⟨rfl, rfl⟩

/-- C6: the pipe loop locates the current stage with filters.index, which
returns the first occurrence of equal stage text; in .a | .a the final
stage is mistaken for the first one, so the stage after position 0 is
re-applied to every element of the final list [1, 2] and fails with a
TypeError, instead of the pipeline returning that list. -/
theorem c6_duplicate_stage_breaks_broadcast :
    applyQ 10 (.dict [("a", .dict [("a", .list [.int 1, .int 2])])]) ".a | .a".data
      = .error (.cannotIndex "int") := rfl

/-- C7 counterexample: the stage text of .["x["]? captures the raw key x[
whose bracket structure is broken, yet evaluating it on the scalar 5
returns null silently: the current value is not a mapping, so parse_key is
never called and the optional marker suppresses everything. -/
theorem c7_optional_on_scalar_swallows_malformed_key :
    applyQ 10 (.int 5) ".[\"x[\"]?".data = .ok .null := rfl

/-- C7 amended: when the current value is a mapping, a structural raw-key
error (missing bracket, wrong bracket order, empty key name, non-integer
bracket interior) is raised even when the stage carries a trailing
question mark; when the current value is not a mapping, the raw key is
never decomposed, so an optional stage with a structurally broken key can
resolve to null instead. -/
theorem c7_amended_structural_errors_on_mapping (n : Nat) (m : List (String × Yaml))
    (q key : List Char) (opt : Bool) (e : Err)
    (hp : '|' ∉ q) (hq : parse_query q = (some key, opt)) (hk : parse_key key = .error e) :
    applyQ (n + 1) (.dict m) q = .error e := by
  have h0 : ¬ (q = [] ∨ q = ['.']) := by
    rintro (rfl | rfl)
    · rw [show parse_query [] = (none, false) from rfl] at hq
      exact absurd hq (by simp)
    · rw [show parse_query ['.'] = (none, false) from rfl] at hq
      exact absurd hq (by simp)
  simp only [applyQ]
  rw [if_neg h0, if_neg hp]
  simp only [hq, hk]

/-- C7 witness: the amended theorem at the concrete query .a[b]? on an
empty mapping: the non-integer bracket interior b raises InvalidIndex even
though the stage is optional. -/
theorem c7_amended_witness :
    applyQ 1 (.dict []) ".a[b]?".data = .error (.invalidIndex "b".data) :=
  c7_amended_structural_errors_on_mapping 0 [] ".a[b]?".data "a[b]".data true
    (.invalidIndex "b".data) (by decide) rfl rfl

/-- C9: a query wrapped in outer brackets with nonempty interior evaluates
the interior and coerces its result to a list: a list result passes
through unchanged (so collection is idempotent on list results), a null
result becomes the empty list, any other single value is wrapped in a
one-element list, and an error propagates. -/
theorem c9_collect_coerces_to_list (fuel : Nat) (doc : Yaml) (q : List Char) (hq : q ≠ []) :
    (∀ l, applyQ fuel doc q = .ok (.list l) →
      main_query fuel doc ('[' :: q ++ [']']) = .ok (.list l)) ∧
    (applyQ fuel doc q = .ok .null →
      main_query fuel doc ('[' :: q ++ [']']) = .ok (.list [])) ∧
    (∀ v, applyQ fuel doc q = .ok v → v.isList = false → v.isNull = false →
      main_query fuel doc ('[' :: q ++ [']']) = .ok (.list [v])) ∧
    (∀ e, applyQ fuel doc q = .error e →
      main_query fuel doc ('[' :: q ++ [']']) = .error e) := by
  have hc1 : ('[' :: q ++ [']']).head? = some '[' := rfl
  have hc2 : ('[' :: q ++ [']']).getLast? = some ']' := List.getLast?_concat _
  have hc3 : 2 < ('[' :: q ++ [']']).length := by
    have := List.length_pos.mpr hq
    simp [List.length_append]
    omega
  have hstrip : (('[' :: q ++ [']']).drop 1).dropLast = q := by
    show (q ++ [']']).dropLast = q
    exact List.dropLast_concat
  have hmain : ∀ r, applyQ fuel doc q = r →
      main_query fuel doc ('[' :: q ++ [']'])
        = (match r with
           | .error e => .error e
           | .ok result =>
             .ok (if result.isList then result
                  else if result.isNull then .list [] else .list [result])) := by
    intro r hr
    unfold main_query
    rw [if_pos ⟨hc1, hc2, hc3⟩, hstrip, hr]
  refine ⟨?_, ?_, ?_, ?_⟩
  · intro l hl; rw [hmain _ hl]; rfl
  · intro hl; rw [hmain _ hl]; rfl
  · intro v hv h1 h2
    rw [hmain _ hv]
    simp [h1, h2]
  · intro e he; rw [hmain _ he]

/-- C9 witness: collecting [.items[1]] on {items: [10, 20, 30]} wraps the
scalar result 20 in a singleton list. -/
theorem c9_collect_witness :
    main_query 5 (.dict [("items", .list [.int 10, .int 20, .int 30])]) "[.items[1]]".data
      = .ok (.list [.int 20]) :=
  (c9_collect_coerces_to_list 5 (.dict [("items", .list [.int 10, .int 20, .int 30])])
    ".items[1]".data (by decide)).2.2.1 (.int 20) rfl rfl rfl

/-- A character does not occur strictly before its first occurrence. -/
theorem not_mem_take_le_idx (c : Char) :
    ∀ (l : List Char) (k : Nat), k ≤ idxOfCh c l → c ∉ l.take k
  | _, 0, _ => by simp
  | [], _ + 1, _ => by simp
  | x :: rest, k + 1, hk => by
    rw [idxOfCh] at hk
    by_cases hx : (x == c) = true
    · rw [if_pos hx] at hk; omega
    · rw [if_neg hx] at hk
      rw [List.take_succ_cons]
      simp only [List.mem_cons, not_or]
      refine ⟨fun he => ?_, not_mem_take_le_idx c rest k (by omega)⟩
      exact absurd (by rw [he]; exact beq_self_eq_true x) hx

/-- C10: the captured text of a quoted bracket query is passed through
bracket decomposition exactly like an unquoted key: parse_key never
returns a key name containing a bracket (the name stops at the first open
bracket, which sits before the first close bracket), so no query can look
up a mapping key whose text contains a bracket; concretely, .["a[0]"] on
the document with literal key "a[0]" bound to 7 and key a bound to [4, 9]
decomposes the quoted text and returns 4, never selecting "a[0]". -/
theorem c10_bracket_keys_unreachable :
    (∀ (k name : List Char) (mi : KIdx) (rem : List Char),
        parse_key k = .ok (name, mi, rem) → '[' ∉ name ∧ ']' ∉ name) ∧
    applyQ 10 (.dict [("a[0]", .int 7), ("a", .list [.int 4, .int 9])]) ".[\"a[0]\"]".data
      = .ok (.int 4) := by
  refine ⟨?_, rfl⟩
  intro k name mi rem h
  simp only [parse_key] at h
  split at h
  · split at h
    · exact absurd h (by simp)
    · split at h
      · exact absurd h (by simp)
      · rename_i hord
        have hord2 : idxOfCh '[' k < idxOfCh ']' k := lt_of_not_ge hord
        have hconc : name = k.take (idxOfCh '[' k) := by
          split at h
          · simp only [Except.ok.injEq, Prod.mk.injEq] at h
            exact h.1.symm
          · split at h
            · exact absurd h (by simp)
            · split at h
              · exact absurd h (by simp)
              · simp only [Except.ok.injEq, Prod.mk.injEq] at h
                exact h.1.symm
        subst hconc
        exact ⟨not_mem_take_le_idx '[' k _ (le_refl _),
          not_mem_take_le_idx ']' k _ (le_of_lt hord2)⟩
  · rename_i hbr
    simp only [Except.ok.injEq, Prod.mk.injEq] at h
    obtain ⟨h1, -⟩ := h
    subst h1
    push_neg at hbr
    exact ⟨hbr.1, hbr.2⟩

/-- C10 witness: the general bracket-freedom statement applied to the
concrete decomposition of the raw key a[0]. -/
theorem c10_bracket_witness :
    '[' ∉ ("a".data : List Char) ∧ ']' ∉ ("a".data : List Char) :=
  c10_bracket_keys_unreachable.1 "a[0]".data "a".data (.index 0) [] rfl


/-- Removing the leading dot of a suffix that starts with a dot followed
by an identifier leaves the identifier chain. -/
theorem lstripDot_dot_ident (c : Char) (cs : List Char) (hc : identStart c = true) :
    lstripDot ('.' :: c :: cs) = c :: cs := by
  have h1 : (c == '.') = false := beq_eq_false_iff_ne.mpr (pred_ne hc (by decide))
  show List.dropWhile (fun x => x == '.') (c :: cs) = c :: cs
  rw [List.dropWhile_cons, h1]
  rfl

/-- Evaluating a dot-identifier stage over every element of a list of
mappings that all contain the field returns the list of field values. -/
theorem mapApp_ident_field (n : Nat) (c : Char) (cs : List Char)
    (hc : identStart c = true) (h : ∀ d ∈ cs, identChar d = true) :
    ∀ (s : List (List (String × Yaml))),
      (∀ mi ∈ s, (lookupKey (String.mk (c :: cs)) mi).isSome = true) →
      mapApp (fun item => applyQ (n + 1) item ('.' :: lstripDot ('.' :: c :: cs)))
          (s.map Yaml.dict)
        = .ok (s.map (fun mi => (lookupKey (String.mk (c :: cs)) mi).getD .null))
  | [], _ => rfl
  | mi :: rest, hall => by
    obtain ⟨v, hv⟩ := Option.isSome_iff_exists.mp (hall mi (by simp))
    have happ : applyQ (n + 1) (.dict mi) ('.' :: lstripDot ('.' :: c :: cs)) = .ok v := by
      rw [lstripDot_dot_ident c cs hc]
      exact applyQ_ident_lookup n mi c cs v hc h hv
    show (match applyQ (n + 1) (.dict mi) ('.' :: lstripDot ('.' :: c :: cs)) with
          | Except.error e => Except.error e
          | Except.ok r =>
            match mapApp (fun item => applyQ (n + 1) item ('.' :: lstripDot ('.' :: c :: cs)))
                (rest.map Yaml.dict) with
            | Except.error e => Except.error e
            | Except.ok rs => Except.ok (r :: rs)) = _
    rw [happ, mapApp_ident_field n c cs hc h rest (fun x hx => hall x (by simp [hx]))]
    simp [hv]

/-- Evaluation of a successfully parsed non-optional stage on a mapping,
with the decomposition of the raw key left symbolic: this is the mapping
branch of apply_query. -/
theorem applyQ_dict_parsed (n : Nat) (m : List (String × Yaml)) (q key : List Char)
    (hne : ¬ (q = [] ∨ q = ['.'])) (hp : '|' ∉ q)
    (hq : parse_query q = (some key, false)) :
    applyQ (n + 1) (.dict m) q
      = (match parse_key key with
         | Except.error e => Except.error e
         | Except.ok (key_v, member_index, remaining) =>
           match lookupKey (String.mk key_v) m with
           | some value =>
             match member_index with
             | KIdx.iterate =>
               match value with
               | Yaml.list items =>
                 if remaining ≠ [] then
                   match mapApp (fun item => applyQ n item ('.' :: lstripDot remaining)) items with
                   | Except.error e => Except.error e
                   | Except.ok rs => Except.ok (Yaml.list rs)
                 else Except.ok value
               | _ => Except.error (Err.cannotIterate (pyTypeName value))
             | KIdx.index i =>
               match pySubscriptInt value i with
               | Except.error e => Except.error e
               | Except.ok result =>
                 if remaining ≠ [] then applyQ n result ('.' :: lstripDot remaining)
                 else Except.ok result
             | KIdx.noIdx => Except.ok value
           | none => Except.error (Err.keyNotFound (String.mk key_v))) := by
  simp only [applyQ]
  rw [if_neg hne, if_neg hp]
  simp only [hq]
  rfl

/-- C8: iterating a sequence of mappings bound to the key a and selecting
a field f of every element: .a[].f returns the list of the per-element
values of f in original order; with no suffix after the brackets, .a[]
returns the bound sequence itself unchanged. -/
theorem c8_iterate_field_suffix (n : Nat) (f : String)
    (s : List (List (String × Yaml))) (m : List (String × Yaml))
    (hf : identTok f.data = true)
    (hm : lookupKey "a" m = some (.list (s.map Yaml.dict)))
    (hs : ∀ mi ∈ s, (lookupKey f mi).isSome = true) :
    applyQ (n + 2) (.dict m) (".a[].".data ++ f.data)
      = .ok (.list (s.map (fun mi => (lookupKey f mi).getD .null))) ∧
    (∀ (l : List Yaml) (m2 : List (String × Yaml)),
      lookupKey "a" m2 = some (.list l) →
      applyQ (n + 1) (.dict m2) ".a[]".data = .ok (.list l)) := by
  constructor
  · obtain ⟨c, cs, hfd, hc, hall⟩ :
        ∃ c cs, f.data = c :: cs ∧ identStart c = true ∧ ∀ d ∈ cs, identChar d = true := by
      cases hfe : f.data with
      | nil => rw [hfe] at hf; exact absurd hf (by simp [identTok])
      | cons c cs =>
        rw [hfe] at hf
        simp only [identTok, Bool.and_eq_true, List.all_eq_true] at hf
        exact ⟨c, cs, rfl, hf.1, hf.2⟩
    have hfe : f = String.mk (c :: cs) := by rw [← hfd]
    subst hfe
    have hquery : (".a[].".data ++ (String.mk (c :: cs)).data : List Char)
        = '.' :: 'a' :: '[' :: ']' :: '.' :: c :: cs := rfl
    rw [hquery]
    have hne : ¬ ('.' :: 'a' :: '[' :: ']' :: '.' :: c :: cs = [] ∨
        '.' :: 'a' :: '[' :: ']' :: '.' :: c :: cs = ['.']) := by simp
    have hnp : '|' ∉ ('.' :: 'a' :: '[' :: ']' :: '.' :: c :: cs) := by
      simp only [List.mem_cons, not_or]
      refine ⟨by decide, by decide, by decide, by decide, by decide,
        fun h1 => pred_ne hc (by decide) h1.symm, ?_⟩
      exact fun h1 => all_not_mem identChar '|' (by decide) hall h1
    have hdot : dotgo false [] ('.' :: c :: cs) = ('.' :: c :: cs, []) := by
      show (if identStart c then dotgo true [c, '.'] cs
            else (([] : List Char).reverse, '.' :: c :: cs)) = ('.' :: c :: cs, [])
      rw [if_pos hc, dotgo_ident_tail [c, '.'] cs hall]
      rfl
    have hchain : chainPat ('.' :: 'a' :: '[' :: ']' :: '.' :: c :: cs)
        = some ('a' :: '[' :: ']' :: '.' :: c :: cs) := by
      show (match dotgo false [] ('.' :: c :: cs) with
            | (dots, r3) =>
              if r3 = [] ∨ r3 = ['?'] then some ('a' :: '[' :: ']' :: dots) else none)
          = some ('a' :: '[' :: ']' :: '.' :: c :: cs)
      rw [hdot]
      rfl
    have hend : endsWithQm ('.' :: 'a' :: '[' :: ']' :: '.' :: c :: cs) = false := by
      show endsWithQm (c :: cs) = false
      exact endsWithQm_all_ident cs c (identStart_char hc) hall
    have hpq : parse_query ('.' :: 'a' :: '[' :: ']' :: '.' :: c :: cs)
        = (some ('a' :: '[' :: ']' :: '.' :: c :: cs), false) := by
      simp only [parse_query,
        show quotedPat '"' ('.' :: 'a' :: '[' :: ']' :: '.' :: c :: cs) = none from rfl,
        show quotedPat '\'' ('.' :: 'a' :: '[' :: ']' :: '.' :: c :: cs) = none from rfl,
        show bracketPat ('.' :: 'a' :: '[' :: ']' :: '.' :: c :: cs) = none from rfl,
        hchain, hend]
    rw [applyQ_dict_parsed (n + 1) m ('.' :: 'a' :: '[' :: ']' :: '.' :: c :: cs)
        ('a' :: '[' :: ']' :: '.' :: c :: cs) hne hnp hpq]
    simp only [show parse_key ('a' :: '[' :: ']' :: '.' :: c :: cs)
        = Except.ok (['a'], KIdx.iterate, '.' :: c :: cs) from rfl]
    have hm2 : lookupKey (String.mk ['a']) m = some (.list (s.map Yaml.dict)) := hm
    simp only [hm2]
    rw [if_pos (show ('.' :: c :: cs : List Char) ≠ [] from by simp)]
    rw [mapApp_ident_field n c cs hc hall s hs]
  · intro l m2 hm2
    have hpq2 : parse_query ".a[]".data = (some "a[]".data, false) := rfl
    rw [applyQ_dict_parsed n m2 ".a[]".data "a[]".data (by decide) (by decide) hpq2]
    simp only [show parse_key "a[]".data
        = Except.ok (['a'], KIdx.iterate, ([] : List Char)) from rfl]
    have hm2a : lookupKey (String.mk ['a']) m2 = some (.list l) := hm2
    simp only [hm2a]
    simp

/-- C8 witness: iterating {a: [{f: 1}, {f: 2}]} with .a[].f yields [1, 2],
and .a[] on {a: [9]} returns the sequence [9] itself. -/
theorem c8_iterate_witness :
    applyQ 2 (.dict [("a", .list [.dict [("f", .int 1)], .dict [("f", .int 2)]])])
        (".a[].".data ++ "f".data)
      = .ok (.list [.int 1, .int 2]) ∧
    applyQ 1 (.dict [("a", .list [.int 9])]) ".a[]".data = .ok (.list [.int 9]) := by
  have h := c8_iterate_field_suffix 0 "f" [[("f", .int 1)], [("f", .int 2)]]
      [("a", .list [.dict [("f", .int 1)], .dict [("f", .int 2)]])] (by decide) rfl
      (by decide)
  exact ⟨h.1, h.2 [.int 9] [("a", .list [.int 9])] rfl⟩
